import Mathlib

/-!
Shallow embedding of the Thread of Ariadne similarity engine (src/main.ts).

Conventions of the embedding:
* JavaScript numbers are modelled as real numbers (`ℝ`); 32-bit integer
  coercions (`x & x`, `x << 5`) that `simpleHash` performs are made explicit
  through `toInt32`.
* Timestamps (`Date.now()`, `file.stat.mtime`) are integers (`ℤ`); each
  invocation receives the clock value `now` as a parameter.
* The mutable `Map<string, EmbeddingCacheItem>` is modelled as a function
  `String → Option EmbeddingCacheItem`; `Map.set`/`Map.delete` become
  pointwise updates.
* `fetch` (the Gemini HTTP call) is an oracle `String → Except GemError Vec`
  giving, for each request text, the vector the network would return or the
  failure (non-ok status / invalid response shape) it would produce.
* Exceptions (`throw` in `getGeminiEmbedding`, rejection of `vault.read`)
  become `Except`; a `NoteFile` whose `content` is `none` is a document whose
  read fails (`NotFound`).
* Stateful methods thread a `RunState` that carries the embedding cache, a
  counter of freshly computed embeddings, and a flag recording whether any
  network request was issued.
* The concept table in `addCrossLanguageFeatures` reproduces the string
  literals exactly as they appear (byte for byte, decoded as UTF-8) in
  src/main.ts.
-/

namespace ThreadOfAriadne

/-- Embedding vectors: ordered sequences of numbers (src/main.ts `number[]`). -/
abbrev Vec := List ℝ

/-- Mirror of `ThreadOfAriadneSettings` (src/main.ts lines 6-14); only the
fields the similarity engine reads. -/
structure Settings where
  apiKey : String
  numSimilarNotes : ℕ
  minSimilarityScore : ℝ
  ignoreFolders : List String
  cacheExpiration : ℤ
  useGeminiEmbeddings : Bool

/-- Mirror of `EmbeddingCacheItem` (src/main.ts lines 25-28): the cached
vector and the timestamp at which it was computed.  Note there is no field
recording which backend produced the vector. -/
structure EmbeddingCacheItem where
  embedding : Vec
  timestamp : ℤ

/-- The `embeddings : Map<string, EmbeddingCacheItem>` member, modelled
pointwise. -/
abbrev Cache := String → Option EmbeddingCacheItem

/-- The slice of Obsidian's `TFile` that the engine reads: path, modification
time (`file.stat.mtime`), extension, and the content `vault.read` would
deliver (`none` when the read rejects, e.g. the file vanished). -/
structure NoteFile where
  path : String
  mtime : ℤ
  extension : String
  content : Option String
deriving DecidableEq

/-- State threaded through one run: the cache plus instrumentation counting
fresh embedding computations and recording whether any network request was
issued. -/
structure RunState where
  cache : Cache
  computations : ℕ
  network : Bool

/-- JavaScript `ToInt32`: reduce an integer to the signed 32-bit range
`[-2^31, 2^31)`, as `hash & hash` and `hash << 5` do in `simpleHash`. -/
def toInt32 (n : ℤ) : ℤ :=
  (n + 2 ^ 31) % 2 ^ 32 - 2 ^ 31

/-- The rolling loop of `simpleHash` (src/main.ts lines 417-425) before the
final `Math.abs`: starting from 0, each character code is folded in via
`hash = ((hash << 5) - hash) + char; hash = hash & hash`.  `hash << 5` first
coerces to 32 bits and multiplies by 32 (again 32-bit); the sum is exact in
double precision and `hash & hash` coerces the result back to 32 bits. -/
def simpleHashCore (str : String) : ℤ :=
  str.data.foldl (fun hash c => toInt32 (toInt32 (hash * 32) - hash + (c.toNat : ℤ))) 0

/-- `simpleHash` (src/main.ts lines 417-425): absolute value of the rolling
32-bit hash.  `Math.abs` on a JavaScript number is exact here (no two's
complement overflow: numbers are doubles). -/
def simpleHash (str : String) : ℤ :=
  |simpleHashCore str|

/-- Slot used for a Latin-script token: `this.simpleHash(token) % 100`
(src/main.ts line 395).  The hash is non-negative, so the JavaScript
remainder coincides with `Int.emod`; the result is returned as the array
index actually used. -/
def latinSlot (token : String) : ℕ :=
  (simpleHash token % 100).toNat

/-- Slot used for a CJK token: `100 + (this.simpleHash(token) % 100)`
(src/main.ts line 392). -/
def cjkSlot (token : String) : ℕ :=
  100 + (simpleHash token % 100).toNat

/-- Membership in the CJK character class of the source regexes:
`[一-鿿぀-ゟ゠-ヿ가-힯]`. -/
def isCJKChar (c : Char) : Bool :=
  (0x4E00 ≤ c.toNat ∧ c.toNat ≤ 0x9FFF) ∨ (0x3040 ≤ c.toNat ∧ c.toNat ≤ 0x309F) ∨
    (0x30A0 ≤ c.toNat ∧ c.toNat ≤ 0x30FF) ∨ (0xAC00 ≤ c.toNat ∧ c.toNat ≤ 0xD7AF)

/-- Character class `[a-z0-9]` used (after lowercasing) by the Latin token
regex in `getLocalEmbedding`. -/
def isLatinTokenChar (c : Char) : Bool :=
  (0x61 ≤ c.toNat ∧ c.toNat ≤ 0x7A) ∨ (0x30 ≤ c.toNat ∧ c.toNat ≤ 0x39)

/-- Maximal runs of characters satisfying `p`, in order — the semantics of
`text.match(/[a-z0-9]+/g)`.  `acc` is the current run, reversed. -/
def matchRuns (p : Char → Bool) : List Char → List Char → List String
  | [], acc => if acc.isEmpty then [] else [String.mk acc.reverse]
  | c :: cs, acc =>
      if p c then matchRuns p cs (c :: acc)
      else if acc.isEmpty then matchRuns p cs []
      else String.mk acc.reverse :: matchRuns p cs []

/-- `text.toLowerCase().match(/[a-z0-9]+/g) || []` (src/main.ts line 361). -/
def latinWords (text : String) : List String :=
  matchRuns isLatinTokenChar text.toLower.data []

/-- `text.match(/[CJK ranges]/g) || []` (src/main.ts line 368): each matched
character is its own token. -/
def cjkChars (text : String) : List String :=
  (text.data.filter isCJKChar).map (fun c => String.mk [c])

/-- `const tokens = [...latinWords, ...cjkChars]` (src/main.ts line 371). -/
def localTokens (text : String) : List String :=
  latinWords text ++ cjkChars text

/-- Distinct tokens in first-occurrence order — `Object.keys(tokenFreq)`
after the counting loop (string keys keep insertion order). -/
def tokenKeys (tokens : List String) : List String :=
  tokens.foldl (fun acc t => if t ∈ acc then acc else acc ++ [t]) []

/-- The frequency `tokenFreq[token]` after the counting loop. -/
def tokenFreq (tokens : List String) (t : String) : ℕ :=
  tokens.count t

/-- `vector[i] += x` on a fixed-length array. -/
def addAt (v : Vec) (i : ℕ) (x : ℝ) : Vec :=
  v.set i (v.getD i 0 + x)

/-- The per-token CJK test in the vector-filling loop (src/main.ts line 385):
the full four-range class, tested anywhere in the token. -/
def isCJKToken (t : String) : Bool :=
  t.data.any isCJKChar

/-- The `isChinese` test of `addCrossLanguageFeatures` (src/main.ts line
477): only the `一-鿿` range. -/
def hasChineseChar (t : String) : Bool :=
  t.data.any (fun c => 0x4E00 ≤ c.toNat ∧ c.toNat ≤ 0x9FFF)

/-- The bilingual concept table of `addCrossLanguageFeatures`
(src/main.ts lines 430-462), with the string literals exactly as the source
file contains them. -/
def commonConcepts : List (String × List String) := [
  (("time"), [("Êó∂Èó¥"), ("Êó∂"), ("Êó•Êúü")]),
  (("day"), [("Â§©"), ("Êó•"), ("Êó•Â≠ê")]),
  (("person"), [("‰∫∫"), ("‰∫∫Âëò"), ("‰∏™‰∫∫")]),
  (("work"), [("Â∑•‰Ωú"), ("ËÅå‰∏ö"), ("‰ªªÂä°")]),
  (("book"), [("‰π¶"), ("‰π¶Á±ç")]),
  (("food"), [("È£üÁâ©"), ("È£üÂìÅ"), ("È§ê")]),
  (("water"), [("Ê∞¥"), ("Ê∞¥ÂàÜ")]),
  (("house"), [("ÊàøÂ≠ê"), ("ÂÆ∂"), ("‰ΩèÂÆÖ")]),
  (("computer"), [("ÁîµËÑë"), ("ËÆ°ÁÆóÊú∫")]),
  (("friend"), [("ÊúãÂèã"), ("‰ºô‰º¥")]),
  (("family"), [("ÂÆ∂Â∫≠"), ("ÂÆ∂‰∫∫")]),
  (("money"), [("Èí±"), ("ÈáëÈí±"), ("ËµÑÈáë")]),
  (("school"), [("Â≠¶Ê†°"), ("Ê†°Âõ≠")]),
  (("business"), [("ÂïÜ‰∏ö"), ("ÁîüÊÑè"), ("‰ºÅ‰∏ö")]),
  (("city"), [("ÂüéÂ∏Ç"), ("Â∏Ç")]),
  (("country"), [("ÂõΩÂÆ∂"), ("ÂõΩ")]),
  (("world"), [("‰∏ñÁïå"), ("ÂÖ®ÁêÉ")]),
  (("health"), [("ÂÅ•Â∫∑"), ("‰øùÂÅ•")]),
  (("history"), [("ÂéÜÂè≤"), ("Âè≤")]),
  (("future"), [("Êú™Êù•"), ("Â∞ÜÊù•")]),
  (("technology"), [("ÊäÄÊúØ"), ("ÁßëÊäÄ")]),
  (("science"), [("ÁßëÂ≠¶"), ("Â≠¶Áßë")]),
  (("art"), [("Ëâ∫ÊúØ"), ("ÁæéÊúØ")]),
  (("music"), [("Èü≥‰πê"), ("Êõ≤")]),
  (("film"), [("ÁîµÂΩ±"), ("ÂΩ±Áâá")]),
  (("love"), [("Áà±"), ("Áà±ÊÉÖ")]),
  (("problem"), [("ÈóÆÈ¢ò"), ("ÈöæÈ¢ò")]),
  (("solution"), [("Ëß£ÂÜ≥ÊñπÊ°à"), ("Ëß£ÂÜ≥"), ("ÊñπÊ°à")]),
  (("idea"), [("ÊÉ≥Ê≥ï"), ("‰∏ªÊÑè"), ("Ê¶ÇÂøµ")]),
  (("information"), [("‰ø°ÊÅØ"), ("ËµÑËÆØ")])
]

/-- Append `v` to the entry of key `k`, creating the entry if absent — the
body of the reversal loop that builds `chineseToEnglish`. -/
def addToAssoc : List (String × List String) → String → String → List (String × List String)
  | [], k, v => [(k, [v])]
  | (k', vs) :: rest, k, v =>
      if k' = k then (k', vs ++ [v]) :: rest else (k', vs) :: addToAssoc rest k v

/-- The reverse mapping `chineseToEnglish` built from `commonConcepts`
(src/main.ts lines 465-473). -/
def chineseToEnglish : List (String × List String) :=
  commonConcepts.foldl (fun acc p => p.2.foldl (fun acc zh => addToAssoc acc zh p.1) acc) []

/-- `addCrossLanguageFeatures` (src/main.ts lines 428-495): for each distinct
token, add half its frequency at the hash slot of every listed equivalent in
the other script's sub-range. -/
def addCrossLanguageFeatures (vector : Vec) (keys : List String) (freq : String → ℝ) : Vec :=
  keys.foldl (fun v token =>
    if hasChineseChar token then
      match chineseToEnglish.lookup token with
      | some engs => engs.foldl (fun v engEquiv => addAt v (latinSlot engEquiv) (freq token * 0.5)) v
      | none => v
    else
      match commonConcepts.lookup token with
      | some zhs => zhs.foldl (fun v zhEquiv => addAt v (cjkSlot zhEquiv) (freq token * 0.5)) v
      | none => v) vector

/-- `vector.reduce((sum, val) => sum + val * val, 0)`. -/
def sumSq (v : Vec) : ℝ :=
  v.foldl (fun sum val => sum + val * val) 0

/-- The body of the vector-filling loop (src/main.ts lines 383-399): choose
the sub-range by script class and accumulate the token frequency there. -/
def fillStep (tokens : List String) (v : Vec) (token : String) : Vec :=
  let slot := if isCJKToken token then cjkSlot token else latinSlot token
  addAt v slot ((tokenFreq tokens token : ℝ))

/-- The unnormalized vector of `getLocalEmbedding`: a 200-slot array filled
with token frequencies at hash slots (src/main.ts lines 381-399), then the
cross-language augmentation pass (line 403). -/
def rawLocalVector (text : String) : Vec :=
  let tokens := localTokens text
  let keys := tokenKeys tokens
  addCrossLanguageFeatures (keys.foldl (fillStep tokens) (List.replicate 200 0)) keys
    (fun t => (tokenFreq tokens t : ℝ))

/-- `getLocalEmbedding` (src/main.ts lines 358-414): build the 200-slot
frequency vector and L2-normalize it when its magnitude is positive. -/
noncomputable def getLocalEmbedding (text : String) : Vec :=
  let vector := rawLocalVector text
  let magnitude := Real.sqrt (sumSq vector)
  if magnitude > 0 then vector.map (fun val => val / magnitude) else vector

/-- `cosineSimilarity` (src/main.ts lines 520-536). -/
noncomputable def cosineSimilarity (a b : Vec) : ℝ :=
  if a.length ≠ b.length then 0
  else
    let dotProduct := (List.zipWith (fun x y => x * y) a b).sum
    let normA := sumSq a
    let normB := sumSq b
    if normA = 0 ∨ normB = 0 then 0
    else dotProduct / (Real.sqrt normA * Real.sqrt normB)

/-- Failure modes of `getGeminiEmbedding`: the missing-key throw (src/main.ts
line 291), a non-ok HTTP status (line 337), an unparseable response shape
(line 345). -/
inductive GemError
  | missingKey
  | apiError
  | formatError
deriving DecidableEq

/-- The network oracle: for a request text, what the `fetch` round-trip to
the embedding service would produce. -/
abbrev FetchOracle := String → Except GemError Vec

/-- The `hasSignificantNonLatin` regex test of `getGeminiEmbedding`
(src/main.ts line 280): at least five consecutive CJK-class characters.  The
fold carries the length of the current run and whether a run of five was
seen. -/
def hasSignificantNonLatin (text : String) : Bool :=
  (text.data.foldl (fun p c =>
    if isCJKChar c then (p.1 + 1, p.2 || (5 ≤ p.1 + 1)) else (0, p.2)) ((0 : ℕ), false)).2

/-- The blank-key test of the source compares the trimmed key with the
empty string; trimming yields the empty string exactly when every character
is whitespace (vacuously so for the empty key), which is how it is
expressed here, in directly computable form. -/
def isBlank (s : String) : Bool :=
  s.data.all Char.isWhitespace

/-- `getGeminiEmbedding` (src/main.ts lines 277-355): validate the API key
(an empty or all-whitespace key throws before the request is issued),
then send the possibly annotated request text over the network.  The second
component records whether a network request was made. -/
def getGeminiEmbedding (apiKey : String) (fetch : FetchOracle) (text : String) :
    (Except GemError Vec) × Bool :=
  if apiKey = "" ∨ isBlank apiKey = true then (Except.error GemError.missingKey, false)
  else
    let requestText := if hasSignificantNonLatin text then
        ("Content for multilingual semantic embedding: ") ++ text
      else text
    (fetch requestText, true)

/-- `getEmbedding` (src/main.ts lines 259-274): use the Gemini path when the
toggle is on and the key is non-empty (JavaScript truthiness of a string);
on any Gemini failure fall back to the local method. -/
noncomputable def getEmbedding (s : Settings) (fetch : FetchOracle) (text : String) :
    Vec × Bool :=
  if s.useGeminiEmbeddings = true ∧ s.apiKey ≠ "" then
    match getGeminiEmbedding s.apiKey fetch text with
    | (Except.ok v, att) => (v, att)
    | (Except.error _, att) => (getLocalEmbedding text, att)
  else (getLocalEmbedding text, false)

/-- `shouldIgnoreFile` (src/main.ts lines 538-546). -/
def shouldIgnoreFile (s : Settings) (file : NoteFile) : Bool :=
  if file.extension ≠ ("md") then true
  else s.ignoreFolders.any (fun folder => file.path.startsWith folder)

/-- `cleanEmbeddingCache` (src/main.ts lines 247-256): delete every entry
with `now - timestamp > cacheExpiration` days (converted to milliseconds);
every other entry is untouched. -/
def cleanEmbeddingCache (s : Settings) (now : ℤ) (cache : Cache) : Cache :=
  fun path =>
    match cache path with
    | some cacheItem =>
        if now - cacheItem.timestamp > s.cacheExpiration * 24 * 60 * 60 * 1000 then none
        else some cacheItem
    | none => none

/-- `this.embeddings.set(path, item)`. -/
def cacheSet (c : Cache) (p : String) (item : EmbeddingCacheItem) : Cache :=
  fun q => if q = p then some item else c q

/-- The recompute branch of `getNoteEmbedding` (src/main.ts lines 507-517):
read the file (whose rejection aborts with an exception), embed the content,
and overwrite the cache entry with the current timestamp. -/
noncomputable def freshEmbedding (s : Settings) (fetch : FetchOracle) (now : ℤ)
    (st : RunState) (file : NoteFile) : (Except Unit Vec) × RunState :=
  match file.content with
  | none => (Except.error (), st)
  | some content =>
      let e := getEmbedding s fetch content
      (Except.ok e.1,
        { cache := cacheSet st.cache file.path ⟨e.1, now⟩,
          computations := st.computations + 1,
          network := st.network || e.2 })

/-- `getNoteEmbedding` (src/main.ts lines 497-518): return the cached vector
when an entry exists whose timestamp is at least the file's modification
time; otherwise compute fresh and overwrite. -/
noncomputable def getNoteEmbedding (s : Settings) (fetch : FetchOracle) (now : ℤ)
    (st : RunState) (file : NoteFile) : (Except Unit Vec) × RunState :=
  match st.cache file.path with
  | some cacheEntry =>
      if file.mtime ≤ cacheEntry.timestamp then (Except.ok cacheEntry.embedding, st)
      else freshEmbedding s fetch now st file
  | none => freshEmbedding s fetch now st file

/-- The candidate loop of `findSimilarNotes` (src/main.ts lines 574-586),
restricted to embedding resolution: files equal to the current file or
ignored are skipped; resolution failures propagate as the exception the
`try` block turns into a failure of the whole operation. -/
noncomputable def resolveCandidates (s : Settings) (fetch : FetchOracle) (now : ℤ)
    (currentFile : NoteFile) :
    RunState → List NoteFile → (Except Unit (List (String × Vec))) × RunState
  | st, [] => (Except.ok [], st)
  | st, file :: files =>
      if file.path = currentFile.path ∨ shouldIgnoreFile s file then
        resolveCandidates s fetch now currentFile st files
      else
        match getNoteEmbedding s fetch now st file with
        | (Except.error e, st') => (Except.error e, st')
        | (Except.ok v, st') =>
            match resolveCandidates s fetch now currentFile st' files with
            | (Except.error e, st'') => (Except.error e, st'')
            | (Except.ok rest, st'') => (Except.ok ((file.path, v) :: rest), st'')

/-- The loop body accumulating `similarityScores` (src/main.ts lines
581-586): push the candidate exactly when `similarity >= minSimilarityScore`. -/
noncomputable def scoreStep (query : Vec) (floor : ℝ)
    (acc : List (String × ℝ)) (c : String × Vec) : List (String × ℝ) :=
  let similarity := cosineSimilarity query c.2
  if floor ≤ similarity then acc ++ [(c.1, similarity)] else acc

/-- The pure ranking stage of `findSimilarNotes` (src/main.ts lines
572-592): score each candidate against the query, keep scores at or above
the floor, sort descending by score (stable, as `Array.prototype.sort`
with the comparator on line 589 is), and truncate to the first
`numSimilarNotes` entries. -/
noncomputable def rank (query : Vec) (candidates : List (String × Vec))
    (floor : ℝ) (cap : ℕ) : List (String × ℝ) :=
  let similarityScores := candidates.foldl (scoreStep query floor) []
  (similarityScores.mergeSort (fun a b => decide (b.2 ≤ a.2))).take cap

/-- `findSimilarNotes` (src/main.ts lines 548-622): resolve the query
document's embedding, resolve every candidate, rank.  Any exception inside
the `try` block (unreadable query or unreadable candidate) makes the whole
operation fail with only an error notice; cache mutations made before the
failure persist. -/
noncomputable def findSimilarNotes (s : Settings) (fetch : FetchOracle) (now : ℤ)
    (st : RunState) (currentFile : NoteFile) (files : List NoteFile) :
    (Except Unit (List (String × ℝ))) × RunState :=
  match getNoteEmbedding s fetch now st currentFile with
  | (Except.error _, st') => (Except.error (), st')
  | (Except.ok currentEmbedding, st') =>
      match resolveCandidates s fetch now currentFile st' files with
      | (Except.error _, st'') => (Except.error (), st'')
      | (Except.ok cands, st'') =>
          (Except.ok (rank currentEmbedding cands s.minSimilarityScore s.numSimilarNotes), st'')

/-! ### Helper lemmas -/

/-- Folding a length-preserving step over any list preserves the vector
length. -/
theorem foldl_length_invariant {α : Type} (g : Vec → α → Vec)
    (hg : ∀ v a, (g v a).length = v.length) :
    ∀ (l : List α) (v : Vec), (l.foldl g v).length = v.length := by
  intro l
  induction l with
  | nil => intro v; rfl
  | cons a l ih => intro v; rw [List.foldl_cons, ih, hg]

/-- The in-place accumulation keeps the array length. -/
theorem addAt_length (v : Vec) (i : ℕ) (x : ℝ) : (addAt v i x).length = v.length := by
  simp [addAt]

/-- Range of the 32-bit coercion. -/
theorem toInt32_range (n : ℤ) : -(2 ^ 31) ≤ toInt32 n ∧ toInt32 n < 2 ^ 31 := by
  unfold toInt32
  have h0 : (0 : ℤ) ≤ (n + 2 ^ 31) % 2 ^ 32 := Int.emod_nonneg _ (by norm_num)
  have h1 : (n + 2 ^ 31) % 2 ^ 32 < 2 ^ 32 := Int.emod_lt_of_pos _ (by norm_num)
  constructor <;> [linarith; linarith]

/-- The rolling hash always stays in the signed 32-bit range. -/
theorem simpleHashCore_range (str : String) :
    -(2 ^ 31) ≤ simpleHashCore str ∧ simpleHashCore str < 2 ^ 31 := by
  unfold simpleHashCore
  have key : ∀ (l : List Char) (h : ℤ), -(2 ^ 31) ≤ h ∧ h < 2 ^ 31 →
      -(2 ^ 31) ≤ l.foldl (fun hash c => toInt32 (toInt32 (hash * 32) - hash + (c.toNat : ℤ))) h
      ∧ l.foldl (fun hash c => toInt32 (toInt32 (hash * 32) - hash + (c.toNat : ℤ))) h < 2 ^ 31 := by
    intro l
    induction l with
    | nil => intro h hh; exact hh
    | cons c cs ih => intro h _; exact ih _ (toInt32_range _)
  exact key str.data 0 (by norm_num)

/-! ### C10 -/

/-- C10: `simpleHash` returns a non-negative value bounded by `2^31` (the
absolute value of a signed 32-bit quantity — in JavaScript `Math.abs` acts
on doubles, so even the minimum 32-bit integer maps to `2^31` exactly), so
every vector index written during local embedding is in bounds: Latin token
slots lie in `[0, 100)`, CJK token slots and the Chinese-side augmentation
slots lie in `[100, 200)`, the English-side augmentation slots lie in
`[0, 100)`, and the produced vector keeps its 200 entries. -/
theorem simpleHash_slot_bounds (str token text : String) :
    0 ≤ simpleHash str
    ∧ -(2 ^ 31) ≤ simpleHashCore str
    ∧ simpleHashCore str < 2 ^ 31
    ∧ simpleHash str ≤ 2 ^ 31
    ∧ latinSlot token < 100
    ∧ 100 ≤ cjkSlot token
    ∧ cjkSlot token < 200
    ∧ (rawLocalVector text).length = 200
    ∧ (getLocalEmbedding text).length = 200 := by
  have hrange := simpleHashCore_range str
  have hmod : ∀ t : String, simpleHash t % 100 < 100 ∧ 0 ≤ simpleHash t % 100 := by
    intro t
    exact ⟨Int.emod_lt_of_pos _ (by norm_num), Int.emod_nonneg _ (by norm_num)⟩
  have hlatin : ∀ t : String, latinSlot t < 100 := by
    intro t
    have h := hmod t
    unfold latinSlot
    omega
  have hcross : ∀ (v : Vec) (keys : List String) (freq : String → ℝ),
      (addCrossLanguageFeatures v keys freq).length = v.length := by
    intro v keys freq
    unfold addCrossLanguageFeatures
    apply foldl_length_invariant
    intro w t
    by_cases h : hasChineseChar t
    · simp only [h, if_true]
      cases chineseToEnglish.lookup t with
      | none => rfl
      | some engs =>
          exact foldl_length_invariant _ (fun u a => addAt_length u _ _) engs w
    · simp only [h, if_false]
      cases commonConcepts.lookup t with
      | none => rfl
      | some zhs =>
          exact foldl_length_invariant _ (fun u a => addAt_length u _ _) zhs w
  have hfill : ∀ (tokens : List String) (v : Vec) (a : String),
      (fillStep tokens v a).length = v.length := by
    intro tokens v a
    unfold fillStep
    exact addAt_length v _ _
  have hraw : ∀ t : String, (rawLocalVector t).length = 200 := by
    intro t
    unfold rawLocalVector
    simp only []
    rw [hcross, foldl_length_invariant _ (hfill _)]
    exact List.length_replicate 200 0
  refine ⟨abs_nonneg _, hrange.1, hrange.2, ?_, hlatin token, ?_, ?_, hraw text, ?_⟩
  · have := abs_le.mpr ⟨hrange.1, le_of_lt hrange.2⟩
    simpa [simpleHash] using this
  · unfold cjkSlot; omega
  · have h := hlatin token
    unfold latinSlot at h
    unfold cjkSlot
    omega
  · unfold getLocalEmbedding
    simp only []
    split
    · simp [hraw text]
    · exact hraw text

/-! ### C6 -/

/-- C6: `cosineSimilarity` is a total function that yields 0 — it never
raises — whenever the two vectors differ in length or either has zero norm
(sum of squared entries zero); mismatched dimensionality is "not
comparable" and scores 0. -/
theorem cosineSimilarity_zero_cases (a b : Vec)
    (h : a.length ≠ b.length ∨ sumSq a = 0 ∨ sumSq b = 0) :
    cosineSimilarity a b = 0 := by
  by_cases hl : a.length = b.length
  · rcases h with h | h | h
    · exact absurd hl h
    · simp [cosineSimilarity, hl, h]
    · simp [cosineSimilarity, hl, h]
  · simp [cosineSimilarity, hl]

/-- Witness for C6 at concrete inputs: a length mismatch and a zero vector. -/
theorem cosineSimilarity_zero_cases_witness :
    ((([1] : Vec).length ≠ ([1, 2] : Vec).length ∨ sumSq ([1] : Vec) = 0 ∨ sumSq ([1, 2] : Vec) = 0)
      ∧ cosineSimilarity ([1] : Vec) ([1, 2] : Vec) = 0)
    ∧ ((([0, 0] : Vec).length ≠ ([3, 4] : Vec).length ∨ sumSq ([0, 0] : Vec) = 0 ∨ sumSq ([3, 4] : Vec) = 0)
      ∧ cosineSimilarity ([0, 0] : Vec) ([3, 4] : Vec) = 0) := by
  have h₁ : ([1] : Vec).length ≠ ([1, 2] : Vec).length ∨ sumSq ([1] : Vec) = 0 ∨ sumSq ([1, 2] : Vec) = 0 :=
    Or.inl (by decide)
  have h₂ : (([0, 0] : Vec)).length ≠ ([3, 4] : Vec).length ∨ sumSq ([0, 0] : Vec) = 0 ∨ sumSq ([3, 4] : Vec) = 0 :=
    Or.inr (Or.inl (by norm_num [sumSq]))
  exact ⟨⟨h₁, cosineSimilarity_zero_cases _ _ h₁⟩, ⟨h₂, cosineSimilarity_zero_cases _ _ h₂⟩⟩

/-! ### C7 -/

/-- C7: after `cleanEmbeddingCache` runs at time `now`, every entry whose
age `now - computedAtTimestamp` exceeds the expiration window
(`cacheExpiration` days in milliseconds) is absent, and every entry whose
age is within the window is returned unchanged. -/
theorem cleanEmbeddingCache_purge_spec (s : Settings) (now : ℤ) (cache : Cache)
    (path : String) (item : EmbeddingCacheItem) (hc : cache path = some item) :
    (now - item.timestamp > s.cacheExpiration * 24 * 60 * 60 * 1000 →
      cleanEmbeddingCache s now cache path = none)
    ∧ (now - item.timestamp ≤ s.cacheExpiration * 24 * 60 * 60 * 1000 →
      cleanEmbeddingCache s now cache path = some item) := by
  constructor
  · intro h
    simp [cleanEmbeddingCache, hc, h]
  · intro h
    simp [cleanEmbeddingCache, hc, not_lt.mpr h]

/-- Witness for C7: with a one-day window, an entry aged just over a day is
purged and an entry aged under a day survives. -/
theorem cleanEmbeddingCache_purge_spec_witness :
    ((86400001 : ℤ) - 0 > 1 * 24 * 60 * 60 * 1000
      ∧ cleanEmbeddingCache ⟨("k"), 5, 0, [], 1, false⟩ 86400001
          (fun p => if p = ("a.md") then some ⟨[1], 0⟩ else none) ("a.md") = none)
    ∧ ((86400001 : ℤ) - 10 ≤ 1 * 24 * 60 * 60 * 1000
      ∧ cleanEmbeddingCache ⟨("k"), 5, 0, [], 1, false⟩ 86400001
          (fun p => if p = ("a.md") then some ⟨[1], 10⟩ else none) ("a.md") = some ⟨[1], 10⟩) :=
  ⟨⟨by decide,
    (cleanEmbeddingCache_purge_spec ⟨("k"), 5, 0, [], 1, false⟩ 86400001
      (fun p => if p = ("a.md") then some ⟨[1], 0⟩ else none) ("a.md") ⟨[1], 0⟩ rfl).1 (by decide)⟩,
   ⟨by decide,
    (cleanEmbeddingCache_purge_spec ⟨("k"), 5, 0, [], 1, false⟩ 86400001
      (fun p => if p = ("a.md") then some ⟨[1], 10⟩ else none) ("a.md") ⟨[1], 10⟩ rfl).2 (by decide)⟩⟩

/-! ### C9 -/

/-- C9: the local embedder is deterministic — repeated calls on the same
text give the same vector, and under a local-backend configuration the
embedding a run computes depends on nothing but the text: not on the
network oracle and not on any other settings. -/
theorem getLocalEmbedding_deterministic (text : String) (s₁ s₂ : Settings)
    (fetch₁ fetch₂ : FetchOracle) (h₁ : s₁.useGeminiEmbeddings = false)
    (h₂ : s₂.useGeminiEmbeddings = false) :
    getLocalEmbedding text = getLocalEmbedding text
    ∧ getEmbedding s₁ fetch₁ text = (getLocalEmbedding text, false)
    ∧ getEmbedding s₁ fetch₁ text = getEmbedding s₂ fetch₂ text := by
  have key : ∀ (s : Settings) (f : FetchOracle), s.useGeminiEmbeddings = false →
      getEmbedding s f text = (getLocalEmbedding text, false) := by
    intro s f hs
    simp [getEmbedding, hs]
  exact ⟨rfl, key s₁ fetch₁ h₁, by rw [key s₁ fetch₁ h₁, key s₂ fetch₂ h₂]⟩

/-- Shared concrete fixtures for the cache-behaviour witnesses. -/
def wFetch : FetchOracle := fun _ => Except.error GemError.apiError

def wSettings : Settings := ⟨("key"), 5, 0, [], 7, false⟩

def wCache : Cache := fun p => if p = ("n.md") then some ⟨[2, 3], 10⟩ else none

def wState : RunState := ⟨wCache, 0, false⟩

def wHit : NoteFile := ⟨("n.md"), 7, ("md"), some ("x")⟩

def wStale : NoteFile := ⟨("n.md"), 11, ("md"), some ("hello")⟩

/-- Witness for C9 at a concrete local-backend configuration. -/
theorem getLocalEmbedding_deterministic_witness :
    wSettings.useGeminiEmbeddings = false
    ∧ getEmbedding wSettings wFetch ("note text") = (getLocalEmbedding ("note text"), false) :=
  ⟨rfl, (getLocalEmbedding_deterministic ("note text") wSettings wSettings wFetch wFetch rfl rfl).2.1⟩

/-! ### Cache helper lemmas -/

/-- A cache entry at least as new as the file's modification time makes
`getNoteEmbedding` return it and leave the state untouched. -/
theorem getNoteEmbedding_hit (s : Settings) (fetch : FetchOracle) (now : ℤ)
    (st : RunState) (file : NoteFile) (e : EmbeddingCacheItem)
    (hc : st.cache file.path = some e) (hts : file.mtime ≤ e.timestamp) :
    getNoteEmbedding s fetch now st file = (Except.ok e.embedding, st) := by
  unfold getNoteEmbedding
  rw [hc]
  simp [hts]

/-! ### C3 -/

/-- C3: `getNoteEmbedding` reuses the cached vector exactly when an entry
exists whose timestamp is at least the file's current modification time;
when the entry is strictly older than the modification time (or absent) and
the file is readable, it computes a fresh vector and overwrites the entry
with the current clock value, counting one more embedding computation. -/
theorem getNoteEmbedding_cache_policy (s : Settings) (fetch : FetchOracle) (now : ℤ)
    (st : RunState) (file : NoteFile) :
    (∀ e, st.cache file.path = some e → file.mtime ≤ e.timestamp →
        getNoteEmbedding s fetch now st file = (Except.ok e.embedding, st))
    ∧ (∀ e content, st.cache file.path = some e → e.timestamp < file.mtime →
        file.content = some content →
        getNoteEmbedding s fetch now st file =
          (Except.ok (getEmbedding s fetch content).1,
            { cache := cacheSet st.cache file.path ⟨(getEmbedding s fetch content).1, now⟩,
              computations := st.computations + 1,
              network := st.network || (getEmbedding s fetch content).2 }))
    ∧ (st.cache file.path = none → ∀ content, file.content = some content →
        getNoteEmbedding s fetch now st file =
          (Except.ok (getEmbedding s fetch content).1,
            { cache := cacheSet st.cache file.path ⟨(getEmbedding s fetch content).1, now⟩,
              computations := st.computations + 1,
              network := st.network || (getEmbedding s fetch content).2 })) := by
  refine ⟨fun e hc hts => getNoteEmbedding_hit s fetch now st file e hc hts, ?_, ?_⟩
  · intro e content hc hlt hcon
    simp [getNoteEmbedding, hc, not_le.mpr hlt, freshEmbedding, hcon]
  · intro hc content hcon
    simp [getNoteEmbedding, hc, freshEmbedding, hcon]

/-- Witness for C3: a hit with timestamp 10 against modification time 7 is
reused; a stale entry with timestamp 10 against modification time 11 is
recomputed and overwritten at clock 99. -/
theorem getNoteEmbedding_cache_policy_witness :
    (wState.cache wHit.path = some ⟨[2, 3], 10⟩
      ∧ wHit.mtime ≤ (10 : ℤ)
      ∧ getNoteEmbedding wSettings wFetch 99 wState wHit = (Except.ok [2, 3], wState))
    ∧ ((10 : ℤ) < wStale.mtime
      ∧ wStale.content = some ("hello")
      ∧ getNoteEmbedding wSettings wFetch 99 wState wStale =
          (Except.ok (getEmbedding wSettings wFetch ("hello")).1,
            { cache := cacheSet wState.cache wStale.path ⟨(getEmbedding wSettings wFetch ("hello")).1, 99⟩,
              computations := wState.computations + 1,
              network := wState.network || (getEmbedding wSettings wFetch ("hello")).2 })) :=
  ⟨⟨rfl, by decide,
    (getNoteEmbedding_cache_policy wSettings wFetch 99 wState wHit).1 ⟨[2, 3], 10⟩ rfl (by decide)⟩,
   ⟨by decide, rfl,
    (getNoteEmbedding_cache_policy wSettings wFetch 99 wState wStale).2.1 ⟨[2, 3], 10⟩ ("hello") rfl
      (by decide) rfl⟩⟩

/-! ### C4 -/

/-- Concrete fixtures for C4: an entry cached at timestamp 100 while the
backend was local, then looked up after the toggle flipped to remote. -/
def c4cache : Cache := fun p => if p = ("note.md") then some ⟨[1, 2], 100⟩ else none

def c4state : RunState := ⟨c4cache, 0, false⟩

def c4file : NoteFile := ⟨("note.md"), 50, ("md"), some ("text")⟩

def localSettings : Settings := ⟨("k"), 5, 0, [], 7, false⟩

def remoteSettings : Settings := ⟨("k"), 5, 0, [], 7, true⟩

/-- C4 counterexample: a vector cached while `useGeminiEmbeddings` was
false is NOT treated as stale after the toggle flips to true — the lookup
under the remote configuration returns the very same cached vector and
leaves the cache untouched, refuting the claim that vectors produced by the
other backend are excluded from reuse. -/
theorem cache_reuse_backend_counterexample :
    getNoteEmbedding localSettings wFetch 200 c4state c4file = (Except.ok [1, 2], c4state)
    ∧ getNoteEmbedding remoteSettings wFetch 200 c4state c4file = (Except.ok [1, 2], c4state) :=
  ⟨getNoteEmbedding_hit localSettings wFetch 200 c4state c4file ⟨[1, 2], 100⟩ rfl (by decide),
   getNoteEmbedding_hit remoteSettings wFetch 200 c4state c4file ⟨[1, 2], 100⟩ rfl (by decide)⟩

/-- C4 (amended): the reuse decision of `getNoteEmbedding` depends only on
the comparison between the file's modification time and the entry's
timestamp — `EmbeddingCacheItem` records no backend — so the very same
entry is reused under any two settings, clocks and network oracles,
including settings that differ in the backend toggle. -/
theorem getNoteEmbedding_reuse_ignores_backend (s₁ s₂ : Settings)
    (fetch₁ fetch₂ : FetchOracle) (now₁ now₂ : ℤ) (st : RunState) (file : NoteFile)
    (e : EmbeddingCacheItem) (hc : st.cache file.path = some e)
    (hts : file.mtime ≤ e.timestamp) :
    getNoteEmbedding s₁ fetch₁ now₁ st file = (Except.ok e.embedding, st)
    ∧ getNoteEmbedding s₁ fetch₁ now₁ st file = getNoteEmbedding s₂ fetch₂ now₂ st file := by
  have h₁ := getNoteEmbedding_hit s₁ fetch₁ now₁ st file e hc hts
  have h₂ := getNoteEmbedding_hit s₂ fetch₂ now₂ st file e hc hts
  exact ⟨h₁, by rw [h₁, h₂]⟩

/-- Witness for the amended C4 at concrete local and remote settings. -/
theorem getNoteEmbedding_reuse_ignores_backend_witness :
    (wState.cache wHit.path = some ⟨[2, 3], 10⟩ ∧ wHit.mtime ≤ (10 : ℤ))
    ∧ getNoteEmbedding localSettings wFetch 1 wState wHit
        = getNoteEmbedding remoteSettings wFetch 2 wState wHit :=
  ⟨⟨rfl, by decide⟩,
   (getNoteEmbedding_reuse_ignores_backend localSettings remoteSettings wFetch wFetch 1 2
      wState wHit ⟨[2, 3], 10⟩ rfl (by decide)).2⟩

/-! ### C2 -/

/-- With an empty or blank API key, `getEmbedding` always produces the
local embedding and issues no network request: an empty key fails the
truthiness test in `getEmbedding`, a blank key passes it but trips the
validation throw in `getGeminiEmbedding` before the request is sent. -/
theorem getEmbedding_blank_key (s : Settings) (fetch : FetchOracle) (text : String)
    (hblank : isBlank s.apiKey = true) :
    getEmbedding s fetch text = (getLocalEmbedding text, false) := by
  by_cases hk : s.apiKey = ("")
  · simp [getEmbedding, hk]
  · by_cases hg : s.useGeminiEmbeddings = true
    · simp [getEmbedding, hg, hk, getGeminiEmbedding, hblank]
    · simp [getEmbedding, hg]

/-- With a blank key, the fresh-compute branch behaves exactly as under the
local backend and leaves the network flag unchanged. -/
theorem freshEmbedding_blank_key (s : Settings) (fetch : FetchOracle) (now : ℤ)
    (st : RunState) (file : NoteFile) (hblank : isBlank s.apiKey = true) :
    freshEmbedding s fetch now st file
      = freshEmbedding { s with useGeminiEmbeddings := false } fetch now st file
    ∧ (freshEmbedding s fetch now st file).2.network = st.network := by
  unfold freshEmbedding
  cases hco : file.content with
  | none => exact ⟨rfl, rfl⟩
  | some content =>
      have h₁ := getEmbedding_blank_key s fetch content hblank
      have h₂ : getEmbedding { s with useGeminiEmbeddings := false } fetch content
          = (getLocalEmbedding content, false) := by
        simp [getEmbedding]
      simp [h₁, h₂]

/-- With a blank key, `getNoteEmbedding` behaves exactly as under the local
backend and leaves the network flag unchanged. -/
theorem getNoteEmbedding_blank_key (s : Settings) (fetch : FetchOracle) (now : ℤ)
    (st : RunState) (file : NoteFile) (hblank : isBlank s.apiKey = true) :
    getNoteEmbedding s fetch now st file
      = getNoteEmbedding { s with useGeminiEmbeddings := false } fetch now st file
    ∧ (getNoteEmbedding s fetch now st file).2.network = st.network := by
  unfold getNoteEmbedding
  cases hcc : st.cache file.path with
  | some e =>
      by_cases hts : file.mtime ≤ e.timestamp
      · simp [hts]
      · simpa [hts] using freshEmbedding_blank_key s fetch now st file hblank
  | none => exact freshEmbedding_blank_key s fetch now st file hblank

/-- With a blank key, candidate resolution behaves exactly as under the
local backend and leaves the network flag unchanged. -/
theorem resolveCandidates_blank_key (s : Settings) (fetch : FetchOracle) (now : ℤ)
    (cur : NoteFile) (hblank : isBlank s.apiKey = true) :
    ∀ (files : List NoteFile) (st : RunState),
    resolveCandidates s fetch now cur st files
      = resolveCandidates { s with useGeminiEmbeddings := false } fetch now cur st files
    ∧ (resolveCandidates s fetch now cur st files).2.network = st.network := by
  have hign : shouldIgnoreFile { s with useGeminiEmbeddings := false } = shouldIgnoreFile s := rfl
  intro files
  induction files with
  | nil => intro st; exact ⟨rfl, rfl⟩
  | cons f fs ih =>
      intro st
      by_cases hc : f.path = cur.path ∨ shouldIgnoreFile s f = true
      · simpa [resolveCandidates, hign, hc] using ih st
      · have hq := getNoteEmbedding_blank_key s fetch now st f hblank
        rcases hres : getNoteEmbedding s fetch now st f with ⟨r, st'⟩
        have hq1 : getNoteEmbedding { s with useGeminiEmbeddings := false } fetch now st f
            = (r, st') := by rw [← hq.1, hres]
        have hnet1 : st'.network = st.network := by
          have h := hq.2
          rw [hres] at h
          simpa using h
        cases r with
        | error e =>
            constructor
            · simp [resolveCandidates, hign, hc, hres, hq1]
            · simp [resolveCandidates, hign, hc, hres, hnet1]
        | ok v =>
            have hr := ih st'
            rcases hrec : resolveCandidates s fetch now cur st' fs with ⟨rr, st''⟩
            have hr1 : resolveCandidates { s with useGeminiEmbeddings := false } fetch now cur st' fs
                = (rr, st'') := by rw [← hr.1, hrec]
            have hnet2 : st''.network = st.network := by
              have h := hr.2
              rw [hrec] at h
              simp at h
              rw [h, hnet1]
            cases rr with
            | error e =>
                constructor
                · simp [resolveCandidates, hign, hc, hres, hq1, hrec, hr1]
                · simp [resolveCandidates, hign, hc, hres, hrec, hnet2]
            | ok rest =>
                constructor
                · simp [resolveCandidates, hign, hc, hres, hq1, hrec, hr1]
                · simp [resolveCandidates, hign, hc, hres, hrec, hnet2]

/-- C2: with an empty or blank (whitespace-only) API key, the Gemini path
fails with the missing-key error before any network request, embedding
resolution falls back to the local embedder, the whole `findSimilarNotes`
run is indistinguishable from a run configured with the local backend, and
no network request is ever issued during it. -/
theorem blank_api_key_falls_back_local (s : Settings) (fetch : FetchOracle) (text : String)
    (now : ℤ) (st : RunState) (cur : NoteFile) (files : List NoteFile)
    (hblank : isBlank s.apiKey = true) :
    getGeminiEmbedding s.apiKey fetch text = (Except.error GemError.missingKey, false)
    ∧ getEmbedding s fetch text = (getLocalEmbedding text, false)
    ∧ findSimilarNotes s fetch now st cur files
        = findSimilarNotes { s with useGeminiEmbeddings := false } fetch now st cur files
    ∧ (findSimilarNotes s fetch now st cur files).2.network = st.network := by
  have main : findSimilarNotes s fetch now st cur files
      = findSimilarNotes { s with useGeminiEmbeddings := false } fetch now st cur files
      ∧ (findSimilarNotes s fetch now st cur files).2.network = st.network := by
    unfold findSimilarNotes
    have hq := getNoteEmbedding_blank_key s fetch now st cur hblank
    rcases hres : getNoteEmbedding s fetch now st cur with ⟨r, st'⟩
    have hq1 : getNoteEmbedding { s with useGeminiEmbeddings := false } fetch now st cur
        = (r, st') := by rw [← hq.1, hres]
    have hnet1 : st'.network = st.network := by
      have h := hq.2
      rw [hres] at h
      exact h
    simp only [hq1]
    cases r with
    | error e => exact ⟨rfl, hnet1⟩
    | ok v =>
        have hrc := resolveCandidates_blank_key s fetch now cur hblank files st'
        rcases hrec : resolveCandidates s fetch now cur st' files with ⟨rr, st''⟩
        have hrc1 : resolveCandidates { s with useGeminiEmbeddings := false } fetch now cur st' files
            = (rr, st'') := by rw [← hrc.1, hrec]
        have hnet2 : st''.network = st.network := by
          have h := hrc.2
          rw [hrec] at h
          rw [h, hnet1]
        simp only [hrec, hrc1]
        cases rr with
        | error e =>
            refine ⟨?_, hnet2⟩
            first
            | rfl
            | trivial
        | ok cands =>
            refine ⟨?_, hnet2⟩
            first
            | rfl
            | trivial
  refine ⟨?_, getEmbedding_blank_key s fetch text hblank, main.1, main.2⟩
  simp [getGeminiEmbedding, hblank]

/-- Concrete fixtures for the C2 witness: remote backend configured with a
whitespace-only key, an empty cache, one readable query document. -/
def c2settings : Settings := ⟨(" "), 3, 0, [], 7, true⟩

def c2cur : NoteFile := ⟨("a.md"), 5, ("md"), some ("alpha beta")⟩

def c2state : RunState := ⟨fun _ => none, 0, false⟩

/-- Witness for C2 at a concrete blank-key configuration. -/
theorem blank_api_key_falls_back_local_witness :
    isBlank c2settings.apiKey = true
    ∧ getEmbedding c2settings wFetch ("alpha") = (getLocalEmbedding ("alpha"), false)
    ∧ (findSimilarNotes c2settings wFetch 50 c2state c2cur []).2.network = c2state.network :=
  ⟨by decide,
   (blank_api_key_falls_back_local c2settings wFetch ("alpha") 50 c2state c2cur [] (by decide)).2.1,
   (blank_api_key_falls_back_local c2settings wFetch ("alpha") 50 c2state c2cur [] (by decide)).2.2.2⟩

/-! ### C5 -/

/-- Every score kept by the accumulation loop is at least the floor. -/
theorem scoreStep_fold_floor (query : Vec) (floor : ℝ) :
    ∀ (l : List (String × Vec)) (acc : List (String × ℝ)),
    (∀ p ∈ acc, floor ≤ p.2) →
    ∀ p ∈ l.foldl (scoreStep query floor) acc, floor ≤ p.2 := by
  intro l
  induction l with
  | nil => intro acc hacc p hp; exact hacc p hp
  | cons c cs ih =>
      intro acc hacc
      rw [List.foldl_cons]
      apply ih
      intro p hp
      simp only [scoreStep] at hp
      by_cases hok : floor ≤ cosineSimilarity query c.2
      · rw [if_pos hok] at hp
        rcases List.mem_append.mp hp with h | h
        · exact hacc p h
        · have h' := List.mem_singleton.mp h
          subst h'
          exact hok
      · rw [if_neg hok] at hp
        exact hacc p hp

/-- When every candidate scores below the floor, the loop keeps nothing. -/
theorem scoreStep_fold_below (query : Vec) (floor : ℝ) :
    ∀ (l : List (String × Vec)) (acc : List (String × ℝ)),
    (∀ c ∈ l, cosineSimilarity query c.2 < floor) →
    l.foldl (scoreStep query floor) acc = acc := by
  intro l
  induction l with
  | nil => intro acc _; rfl
  | cons c cs ih =>
      intro acc h
      rw [List.foldl_cons]
      have hc : cosineSimilarity query c.2 < floor := h c (List.mem_cons_self c cs)
      have hst : scoreStep query floor acc c = acc := by
        simp only [scoreStep]
        rw [if_neg (not_le.mpr hc)]
      rw [hst]
      exact ih acc (fun d hd => h d (List.mem_cons_of_mem c hd))

/-- C5: the ranking stage returns at most `cap` results, every returned
score is at least the floor, the output is sorted non-increasingly by
score, and an empty candidate set — or one whose scores all fall below the
floor — yields the empty list rather than an error. -/
theorem rank_spec (query : Vec) (candidates : List (String × Vec)) (floor : ℝ) (cap : ℕ) :
    (rank query candidates floor cap).length ≤ cap
    ∧ (∀ p ∈ rank query candidates floor cap, floor ≤ p.2)
    ∧ List.Pairwise (fun p q : String × ℝ => q.2 ≤ p.2) (rank query candidates floor cap)
    ∧ rank query [] floor cap = []
    ∧ ((∀ c ∈ candidates, cosineSimilarity query c.2 < floor) →
        rank query candidates floor cap = []) := by
  have hsorted : List.Pairwise (fun p q : String × ℝ => q.2 ≤ p.2)
      ((candidates.foldl (scoreStep query floor) []).mergeSort
        (fun a b => decide (b.2 ≤ a.2))) := by
    have h := @List.sorted_mergeSort (String × ℝ)
      (fun a b : String × ℝ => decide (b.2 ≤ a.2))
      (fun a b c hab hbc => by
        simp only [decide_eq_true_eq] at hab hbc ⊢
        exact le_trans hbc hab)
      (fun a b => by
        simp only [Bool.or_eq_true, decide_eq_true_eq]
        exact le_total b.2 a.2)
      (candidates.foldl (scoreStep query floor) [])
    exact h.imp (fun hab => by simpa [decide_eq_true_eq] using hab)
  refine ⟨?_, ?_, ?_, ?_, ?_⟩
  · simp only [rank]
    exact List.length_take_le _ _
  · intro p hp
    simp only [rank] at hp
    have hp₁ := List.take_subset _ _ hp
    have hp₂ := List.mem_mergeSort.mp hp₁
    exact scoreStep_fold_floor query floor candidates [] (by simp) p hp₂
  · simp only [rank]
    exact List.Pairwise.sublist (List.take_sublist _ _) hsorted
  · simp [rank]
  · intro hbelow
    have h₀ := scoreStep_fold_below query floor candidates [] hbelow
    simp [rank, h₀]

/-- Witness for C5: a zero-norm query scores 0 against the only candidate,
below the floor 7/10, so the ranked list is empty. -/
theorem rank_spec_witness :
    (∀ c ∈ ([((("b") : String), ([1, 0] : Vec))] : List (String × Vec)),
        cosineSimilarity ([0, 0] : Vec) c.2 < (7 : ℝ) / 10)
    ∧ rank ([0, 0] : Vec) [((("b") : String), ([1, 0] : Vec))] ((7 : ℝ) / 10) 5 = [] := by
  have hbelow : ∀ c ∈ ([((("b") : String), ([1, 0] : Vec))] : List (String × Vec)),
      cosineSimilarity ([0, 0] : Vec) c.2 < (7 : ℝ) / 10 := by
    intro c hc
    have h' := List.mem_singleton.mp hc
    subst h'
    show cosineSimilarity ([0, 0] : Vec) ([1, 0] : Vec) < (7 : ℝ) / 10
    have hz : cosineSimilarity ([0, 0] : Vec) ([1, 0] : Vec) = 0 := by
      norm_num [cosineSimilarity, sumSq]
    rw [hz]
    norm_num
  exact ⟨hbelow,
    (rank_spec ([0, 0] : Vec) [((("b") : String), ([1, 0] : Vec))] ((7 : ℝ) / 10) 5).2.2.2.2 hbelow⟩

/-! ### C8 -/

/-- When every non-skipped candidate has a fresh-enough cache entry,
candidate resolution succeeds, leaves the state untouched, and does not
depend on the network oracle or the clock. -/
theorem resolveCandidates_warm (s : Settings) (f₁ f₂ : FetchOracle) (now₁ now₂ : ℤ)
    (cur : NoteFile) :
    ∀ (files : List NoteFile) (st : RunState),
    (∀ file ∈ files, ¬(file.path = cur.path ∨ shouldIgnoreFile s file = true) →
        ∃ e, st.cache file.path = some e ∧ file.mtime ≤ e.timestamp) →
    resolveCandidates s f₁ now₁ cur st files = resolveCandidates s f₂ now₂ cur st files
    ∧ (resolveCandidates s f₁ now₁ cur st files).2 = st
    ∧ ∃ r, (resolveCandidates s f₁ now₁ cur st files).1 = Except.ok r := by
  intro files
  induction files with
  | nil => intro st _; exact ⟨rfl, rfl, [], rfl⟩
  | cons f fs ih =>
      intro st h
      have htail : ∀ file ∈ fs, ¬(file.path = cur.path ∨ shouldIgnoreFile s file = true) →
          ∃ e, st.cache file.path = some e ∧ file.mtime ≤ e.timestamp :=
        fun file hf hns => h file (List.mem_cons_of_mem f hf) hns
      by_cases hc : f.path = cur.path ∨ shouldIgnoreFile s f = true
      · simpa [resolveCandidates, hc] using ih st htail
      · obtain ⟨e, hce, hts⟩ := h f (List.mem_cons_self f fs) hc
        have h₁ := getNoteEmbedding_hit s f₁ now₁ st f e hce hts
        have h₂ := getNoteEmbedding_hit s f₂ now₂ st f e hce hts
        rcases ih st htail with ⟨heq, hst, r, hr⟩
        simp only [resolveCandidates, if_neg hc, h₁, h₂, ← heq]
        rcases hrec : resolveCandidates s f₁ now₁ cur st fs with ⟨rr, st''⟩
        rw [hrec] at hst hr
        simp only at hst hr
        subst hst
        subst hr
        exact ⟨trivial, rfl, (f.path, e.embedding) :: r, rfl⟩

/-- C8: with a warm cache — an entry at least as new as the modification
time for the query document and for every non-skipped candidate — a
`findSimilarNotes` run leaves the state entirely unchanged (zero additional
embedding computations, no cache write, no network request), succeeds with
a ranked list, and a second run in succession (any clock, any network
oracle) produces the identical outcome. -/
theorem findSimilarNotes_warm_idempotent (s : Settings) (f₁ f₂ : FetchOracle)
    (now₁ now₂ : ℤ) (st : RunState) (cur : NoteFile) (files : List NoteFile)
    (hq : ∃ e, st.cache cur.path = some e ∧ cur.mtime ≤ e.timestamp)
    (hw : ∀ file ∈ files, ¬(file.path = cur.path ∨ shouldIgnoreFile s file = true) →
        ∃ e, st.cache file.path = some e ∧ file.mtime ≤ e.timestamp) :
    (findSimilarNotes s f₁ now₁ st cur files).2 = st
    ∧ (∃ r, (findSimilarNotes s f₁ now₁ st cur files).1 = Except.ok r)
    ∧ findSimilarNotes s f₂ now₂ st cur files = findSimilarNotes s f₁ now₁ st cur files := by
  obtain ⟨e, hce, hts⟩ := hq
  have h₁ := getNoteEmbedding_hit s f₁ now₁ st cur e hce hts
  have h₂ := getNoteEmbedding_hit s f₂ now₂ st cur e hce hts
  rcases resolveCandidates_warm s f₁ f₂ now₁ now₂ cur files st hw with ⟨heq, hst, r, hr⟩
  unfold findSimilarNotes
  simp only [h₁, h₂, ← heq]
  rcases hrec : resolveCandidates s f₁ now₁ cur st files with ⟨rr, st''⟩
  rw [hrec] at hst hr
  simp only at hst hr
  subst hst
  subst hr
  exact ⟨rfl, ⟨rank e.embedding r s.minSimilarityScore s.numSimilarNotes, rfl⟩, trivial⟩

/-- Concrete fixtures for the C8 witness: query and one candidate, both
with fresh cache entries. -/
def c8cache : Cache := fun p =>
  if p = ("a.md") then some ⟨[1, 0], 10⟩
  else if p = ("b.md") then some ⟨[0, 1], 10⟩
  else none

def c8state : RunState := ⟨c8cache, 0, false⟩

def c8cur : NoteFile := ⟨("a.md"), 5, ("md"), some ("x")⟩

def c8other : NoteFile := ⟨("b.md"), 5, ("md"), some ("y")⟩

/-- Witness for C8 at a concrete warm two-document corpus. -/
theorem findSimilarNotes_warm_idempotent_witness :
    (∃ e, c8state.cache c8cur.path = some e ∧ c8cur.mtime ≤ e.timestamp)
    ∧ (findSimilarNotes localSettings wFetch 100 c8state c8cur [c8other]).2 = c8state
    ∧ findSimilarNotes localSettings wFetch 200 c8state c8cur [c8other]
        = findSimilarNotes localSettings wFetch 100 c8state c8cur [c8other] := by
  have hq : ∃ e, c8state.cache c8cur.path = some e ∧ c8cur.mtime ≤ e.timestamp :=
    ⟨⟨[1, 0], 10⟩, rfl, by decide⟩
  have hw : ∀ file ∈ [c8other],
      ¬(file.path = c8cur.path ∨ shouldIgnoreFile localSettings file = true) →
      ∃ e, c8state.cache file.path = some e ∧ file.mtime ≤ e.timestamp := by
    intro file hf _
    have h' := List.mem_singleton.mp hf
    subst h'
    exact ⟨⟨[0, 1], 10⟩, rfl, by decide⟩
  have h := findSimilarNotes_warm_idempotent localSettings wFetch wFetch 100 200 c8state
    c8cur [c8other] hq hw
  exact ⟨hq, h.1, h.2.2⟩

/-! ### C1 -/

/-- Resolving one file only ever writes the cache at that file's own path. -/
theorem getNoteEmbedding_cache_other (s : Settings) (fetch : FetchOracle) (now : ℤ)
    (st : RunState) (file : NoteFile) (q : String) (hq : q ≠ file.path) :
    ((getNoteEmbedding s fetch now st file).2).cache q = st.cache q := by
  unfold getNoteEmbedding
  cases hcc : st.cache file.path with
  | some e =>
      by_cases hts : file.mtime ≤ e.timestamp
      · simp [hts]
      · simp only [hts, if_false]
        unfold freshEmbedding
        cases file.content with
        | none => rfl
        | some content => simp [cacheSet, hq]
  | none =>
      unfold freshEmbedding
      cases file.content with
      | none => rfl
      | some content => simp [cacheSet, hq]

/-- When the candidate list contains an unreadable document with no usable
cache entry, the sequential resolution loop ends in the exception. -/
theorem resolveCandidates_unreadable_fails (s : Settings) (fetch : FetchOracle) (now : ℤ)
    (cur : NoteFile) (bad : NoteFile)
    (hskip : ¬(bad.path = cur.path ∨ shouldIgnoreFile s bad = true))
    (hread : bad.content = none) :
    ∀ (files : List NoteFile) (st : RunState),
    bad ∈ files →
    st.cache bad.path = none →
    (∀ f ∈ files, f.path = bad.path → f = bad) →
    (resolveCandidates s fetch now cur st files).1 = Except.error () := by
  intro files
  induction files with
  | nil => intro st hmem; exact absurd hmem (List.not_mem_nil bad)
  | cons f fs ih =>
      intro st hmem hcache huniq
      by_cases hc : f.path = cur.path ∨ shouldIgnoreFile s f = true
      · have hbf : bad ≠ f := by
          intro h
          exact hskip (h ▸ hc)
        have hmem' : bad ∈ fs := by
          rcases List.mem_cons.mp hmem with h | h
          · exact absurd h hbf
          · exact h
        simp only [resolveCandidates, if_pos hc]
        exact ih st hmem' hcache (fun g hg => huniq g (List.mem_cons_of_mem f hg))
      · by_cases hfb : f = bad
        · subst hfb
          have hbadnote : getNoteEmbedding s fetch now st f = (Except.error (), st) := by
            unfold getNoteEmbedding
            rw [hcache]
            unfold freshEmbedding
            rw [hread]
          simp only [resolveCandidates, if_neg hc, hbadnote]
        · have hfpath : f.path ≠ bad.path := by
            intro h
            exact hfb (huniq f (List.mem_cons_self f fs) h)
          have hmem' : bad ∈ fs := by
            rcases List.mem_cons.mp hmem with h | h
            · exact absurd h.symm hfb
            · exact h
          simp only [resolveCandidates, if_neg hc]
          rcases hres : getNoteEmbedding s fetch now st f with ⟨r, st'⟩
          have hcache' : st'.cache bad.path = none := by
            have h := getNoteEmbedding_cache_other s fetch now st f bad.path (Ne.symm hfpath)
            rw [hres] at h
            simp only at h
            rw [h]
            exact hcache
          cases r with
          | error e => rfl
          | ok v =>
              have htail := ih st' hmem' hcache'
                (fun g hg => huniq g (List.mem_cons_of_mem f hg))
              rcases hrec : resolveCandidates s fetch now cur st' fs with ⟨rr, st''⟩
              rw [hrec] at htail
              simp only at htail
              subst htail
              simp only [hrec]

/-- C1 (amended): a failure to embed a single candidate (unreadable
document with no usable cache entry) is NOT isolated — the exception
escapes the candidate loop into the surrounding try/catch, and the whole
`findSimilarNotes` operation fails with no result, regardless of how many
other candidates were readable. -/
theorem findSimilarNotes_candidate_failure_aborts (s : Settings) (fetch : FetchOracle)
    (now : ℤ) (st : RunState) (cur : NoteFile) (files : List NoteFile) (bad : NoteFile)
    (hmem : bad ∈ files)
    (hskip : ¬(bad.path = cur.path ∨ shouldIgnoreFile s bad = true))
    (hcache : st.cache bad.path = none)
    (hread : bad.content = none)
    (huniq : ∀ f ∈ files, f.path = bad.path → f = bad) :
    (findSimilarNotes s fetch now st cur files).1 = Except.error () := by
  unfold findSimilarNotes
  rcases hres : getNoteEmbedding s fetch now st cur with ⟨r, st'⟩
  cases r with
  | error e => rfl
  | ok v =>
      have hq : st'.cache bad.path = none := by
        have h := getNoteEmbedding_cache_other s fetch now st cur bad.path
          (fun h => hskip (Or.inl h))
        rw [hres] at h
        simp only at h
        rw [h]
        exact hcache
      have htail := resolveCandidates_unreadable_fails s fetch now cur bad hskip hread
        files st' hmem hq huniq
      rcases hrec : resolveCandidates s fetch now cur st' files with ⟨rr, st''⟩
      rw [hrec] at htail
      simp only at htail
      subst htail
      simp only [hrec]

/-- Concrete fixtures for C1: a cached readable query, an unreadable
candidate, and a readable candidate with the same content as the query. -/
def c1cache : Cache := fun p => if p = ("q.md") then some ⟨[1, 0], 100⟩ else none

def c1state : RunState := ⟨c1cache, 0, false⟩

def c1cur : NoteFile := ⟨("q.md"), 50, ("md"), some ("query")⟩

def c1bad : NoteFile := ⟨("gone.md"), 50, ("md"), none⟩

def c1good : NoteFile := ⟨("good.md"), 50, ("md"), some ("query")⟩

/-- C1 counterexample: with corpus `[c1bad, c1good]` — one unreadable
candidate and one perfectly readable one — `findSimilarNotes` does NOT drop
the unreadable candidate and succeed over the remaining corpus: it fails
outright, returning the error outcome and leaving the state as it was. -/
theorem unreadable_candidate_aborts_counterexample :
    findSimilarNotes localSettings wFetch 200 c1state c1cur [c1bad, c1good]
      = (Except.error (), c1state) := by
  rfl

/-- Witness for the amended C1 at the concrete corpus. -/
theorem findSimilarNotes_candidate_failure_aborts_witness :
    (c1bad ∈ [c1bad, c1good]
      ∧ ¬(c1bad.path = c1cur.path ∨ shouldIgnoreFile localSettings c1bad = true)
      ∧ c1state.cache c1bad.path = none
      ∧ c1bad.content = none)
    ∧ (findSimilarNotes localSettings wFetch 300 c1state c1cur [c1bad, c1good]).1
        = Except.error () :=
  ⟨⟨List.mem_cons_self c1bad [c1good], by decide, rfl, rfl⟩,
   findSimilarNotes_candidate_failure_aborts localSettings wFetch 300 c1state c1cur
     [c1bad, c1good] c1bad (List.mem_cons_self c1bad [c1good]) (by decide) rfl rfl
     (by decide)⟩

end ThreadOfAriadne
